import Mathlib

/-!
Verification development for LipidFinder's PeakFilter core
(`LipidFinder/PeakFilter/PeakFinder.py`, `LipidFinder/PeakFilter/Clustering.py`,
`LipidFinder/_utils/__init__.py`, `LipidFinder/LFDataFrame.py`).

Conventions of the shallow embedding:
* Python floats are modelled as rationals (`ℚ`).  Python's `round(x, n)`
  (round half to even on the decimal value) is modelled by `roundP` below
  using exact rational arithmetic with ties-to-even.
* numpy arrays that are indexed and mutated in place are modelled as total
  functions `ℕ → α` updated with `upd`; the ambient array length
  `n` is carried separately, mirroring the source which never indexes out of
  the `0 .. size-1` range (guards in the source become guards here).
* The `while` loops of the source are modelled by structural recursion on an
  explicit natural number that mirrors the quantity the loop drives down
  (an index walking to 0, `highest - index` walking up, or an iteration-count
  fuel for the outer categorisation loop, whose sufficiency is proved).
-/

unseal Rat.mul Rat.add Rat.sub Rat.inv

deriving instance DecidableEq for Except

namespace LipidFinder

/-- Frame categories of the peak consolidation state machine in
`PeakFinder.__feat_peak_analysis__`: `'--'` (uncategorised), `'PC'` (peak
centre), `'PF'` (peak frame), `'PS'` (shared peak frame), `'SF'` (solvent
frame). -/
inductive Cat where
  | UC
  | PC
  | PF
  | PS
  | SF
deriving DecidableEq, Repr

/-- The PeakFilter parameters consumed by `PeakFinder.process_features`. -/
structure PFParams where
  peakMinFoldDiff : ℚ
  peakMaxRTWidth : ℚ
  concatAllFrames : Bool
deriving Repr

/-- Point update of a function array (`a[j] = v` on a numpy array), written
with a plain conditional so that it evaluates by kernel reduction. -/
def upd {α : Type} (f : ℕ → α) (j : ℕ) (v : α) : ℕ → α := fun i =>
  if i = j then v else f i

/-- Round a rational to the nearest integer, ties to even: the semantics of
Python 3's built-in `round` on exact decimal values. -/
def roundHE (x : ℚ) : ℤ :=
  let f := ⌊x⌋
  let r := x - f
  if r < 1/2 then f
  else if r > 1/2 then f + 1
  else if f % 2 = 0 then f else f + 1

/-- `round(x, p)` of Python: round to `p` decimal digits. -/
def roundP (p : ℕ) (x : ℚ) : ℚ :=
  (roundHE (x * (10 : ℚ) ^ p) : ℚ) / (10 : ℚ) ^ p

/-- `round(x, 3)`, used by the peak width checks in `__feat_peak_analysis__`. -/
def round3 (x : ℚ) : ℚ := roundP 3 x

/-- `_utils.mz_delta(mz, fixederr, ppmerr, precision=5)`:
`round(fixederr + (mz * ppmerr * 1e-6), precision)`. -/
def mz_delta (mz fixederr ppmerr : ℚ) : ℚ :=
  roundP 5 (fixederr + mz * ppmerr * (1 / 1000000))

/-- `_utils.mz_tol_range(mz, fixederr, ppmerr, precision=5)`:
`(round(mz - delta, precision), round(mz + delta, precision))`. -/
def mz_tol_range (mz fixederr ppmerr : ℚ) : ℚ × ℚ :=
  let delta := mz_delta mz fixederr ppmerr
  (roundP 5 (mz - delta), roundP 5 (mz + delta))

/-- Maximum of a list of rationals (`numpy .max()`); the `[]` case is
unreachable at every call site, mirroring the source's comment that an empty
maximum "should not happen". -/
def listMax : List ℚ → ℚ
  | [] => 0
  | x :: xs => xs.foldl max x

/-- `numpy.argmax` over indices `0 .. n-1` of `f`: the first index attaining
the maximum value (`argmax_go f n` scans indices `< n`). -/
def argmax_go (f : ℕ → ℚ) : ℕ → ℕ
  | 0 => 0
  | m + 1 =>
    let b := argmax_go f m
    if f m > f b then m else b

/-- Loop body of `PeakFinder.__solvents_low_rt__` (lines 431-447): walk left
from `pLI` tagging solvent frames while the previous frame is uncategorised,
non-zero and within the fold-difference of the current frame.  Structural
recursion on the walking index (`lowestIndex` is 0 at every call site). -/
def solvents_low_go (p : PFParams) (ints : ℕ → ℚ) : ℕ → (ℕ → Cat) → (ℕ → Cat)
  | 0, cats => cats
  | k + 1, cats =>
    if cats k = Cat.UC ∧ ints k ≠ 0 then
      if p.peakMinFoldDiff * ints (k + 1) ≥ ints k then
        solvents_low_go p ints k (upd cats k Cat.SF)
      else cats
    else cats

/-- `PeakFinder.__solvents_low_rt__`: tag `pLI` as `'SF'`, then walk left. -/
def solvents_low_rt (p : PFParams) (ints : ℕ → ℚ) (cats : ℕ → Cat) (pLI : ℕ) :
    ℕ → Cat :=
  solvents_low_go p ints pLI (upd cats pLI Cat.SF)

/-- Loop body of `PeakFinder.__solvents_high_rt__` (lines 468-484), walking
right from `pHI` toward `highest`.  The recursion argument is
`highest - pHI`, which mirrors the loop guard `highestIndex > peakHighestIndex`
(positive iff the loop may run) and decreases by one with the index step. -/
def solvents_high_go (p : PFParams) (ints : ℕ → ℚ) : ℕ → ℕ → (ℕ → Cat) → (ℕ → Cat)
  | _, 0, cats => cats
  | pHI, g + 1, cats =>
    if cats (pHI + 1) = Cat.UC ∧ ints (pHI + 1) ≠ 0 then
      if p.peakMinFoldDiff * ints pHI ≥ ints (pHI + 1) then
        solvents_high_go p ints (pHI + 1) g (upd cats (pHI + 1) Cat.SF)
      else cats
    else cats

/-- `PeakFinder.__solvents_high_rt__`: tag `pHI` as `'SF'`, then walk right
toward `highest`. -/
def solvents_high_rt (p : PFParams) (ints : ℕ → ℚ) (highest : ℕ) (cats : ℕ → Cat)
    (pHI : ℕ) : ℕ → Cat :=
  solvents_high_go p ints pHI (highest - pHI) (upd cats pHI Cat.SF)

/-- Result of the left peakiness check of `__feat_peak_analysis__`
(lines 157-202): the `framesLeft` flag, the `widePeak` marker, the updated
`peakLowestIndex`, and whether the solvent path (`continue`) was taken. -/
structure LeftRes where
  framesLeft : Bool
  widePeak : Option Bool
  peakLow : ℕ
  solvent : Bool
deriving DecidableEq, Repr

/-- Result of the right peakiness check (lines 204-266): the `framesRight`
flag, the (possibly updated) `widePeak` marker, the updated
`peakHighestIndex`, and whether the solvent path (`continue`) was taken. -/
structure RightRes where
  framesRight : Bool
  widePeak : Option Bool
  peakHigh : ℕ
  solvent : Bool
deriving DecidableEq, Repr

/-- The `widePeak` marker: `none` is Python's `None`, `some false` is
`"Left"`, `some true` is `"Right"`. -/
def wideLeft : Option Bool := some false

/-- The `"Right"` value of the `widePeak` marker. -/
def wideRight : Option Bool := some true

/-- Left peakiness check of `__feat_peak_analysis__` (lines 157-202), with
`peakLowestIndex = c` and `lowestIndex = 0` on entry.  When `solvent` is set
the caller runs both solvent scans from `c` and starts the next iteration. -/
def left_check (p : PFParams) (ints : ℕ → ℚ) (c : ℕ) : LeftRes :=
  if 0 < c ∧ ints (c - 1) ≠ 0 then
    if p.peakMinFoldDiff * ints (c - 1) ≥ ints c then
      if 1 < c ∧ ints (c - 2) ≠ 0 then
        if p.peakMinFoldDiff * ints (c - 2) ≥ ints (c - 1) then
          ⟨true, none, c, true⟩
        else ⟨true, wideLeft, c - 2, false⟩
      else ⟨false, wideLeft, c - 1, false⟩
    else ⟨true, none, c - 1, false⟩
  else ⟨false, none, c, false⟩

/-- Right peakiness check of `__feat_peak_analysis__` (lines 204-266), with
`peakHighestIndex = c` on entry and `wp` the `widePeak` value left by the
left check.  Note the asymmetry with the left check: in the boundary branch
(no usable frame at `c + 2`) the source sets `framesRight = False` and
advances `peakHighestIndex` but does not set `widePeak`. -/
def right_check (p : PFParams) (ints : ℕ → ℚ) (highest c : ℕ) (wp : Option Bool) :
    RightRes :=
  if c < highest ∧ ints (c + 1) ≠ 0 then
    if p.peakMinFoldDiff * ints (c + 1) ≥ ints c then
      if wp ≠ none then ⟨true, wp, c, true⟩
      else if c + 1 < highest ∧ ints (c + 2) ≠ 0 then
        if p.peakMinFoldDiff * ints (c + 2) ≥ ints (c + 1) then ⟨true, wp, c, true⟩
        else ⟨true, wideRight, c + 2, false⟩
      else ⟨false, wp, c + 1, false⟩
    else ⟨true, wp, c + 1, false⟩
  else ⟨false, wp, c, false⟩

/-- Recentred peak-centre retention time (lines 268-271): the midpoint of the
two tied frames for a wide peak, otherwise the centre's own RT. -/
def recentre_rt (rt : ℕ → ℚ) (c : ℕ) : Option Bool → ℚ
  | some false => (rt c + rt (c - 1)) / 2
  | some true => (rt c + rt (c + 1)) / 2
  | none => rt c

/-- First retagging pass over the slice `[lo, hi]` (lines 277-279): frames
already `'PF'` become shared `'PS'`. -/
def retag_pass1 (cats : ℕ → Cat) (lo hi : ℕ) : ℕ → Cat := fun j =>
  if lo ≤ j ∧ j ≤ hi ∧ cats j = Cat.PF then Cat.PS else cats j

/-- Second retagging pass over the slice `[lo, hi]` (lines 280-283): frames
that are neither `'PC'` nor `'PS'` become `'PF'`. -/
def retag_slice (cats : ℕ → Cat) (lo hi : ℕ) : ℕ → Cat := fun i =>
  if lo ≤ i ∧ i ≤ hi ∧ retag_pass1 cats lo hi i ≠ Cat.PC ∧
      retag_pass1 cats lo hi i ≠ Cat.PS then Cat.PF
  else retag_pass1 cats lo hi i

/-- Left growth loop of `__feat_peak_analysis__` (lines 285-338): extend the
peak leftward within the RT-width limit, tagging `'PF'`/`'PS'`, with the
solvent-tail checks on exit.  Recursion on `peakLowestIndex` itself, which
the loop drives toward `lowestIndex = 0`.  Returns the updated categories
and the final `peakLowestIndex`. -/
def grow_left_go (p : PFParams) (ints rt : ℕ → ℚ) (rtPC : ℚ) :
    ℕ → (ℕ → Cat) → (ℕ → Cat) × ℕ
  | 0, cats => (cats, 0)
  | k + 1, cats =>
    if ints k = 0 then (cats, k + 1)
    else if round3 (rtPC - rt k) ≤ round3 (p.peakMaxRTWidth / 2) then
      if p.peakMinFoldDiff * ints k ≥ ints (k + 1) then
        if p.peakMinFoldDiff * ints (k + 1) ≥ ints k then
          (solvents_low_rt p ints cats k, k + 1)
        else (cats, k + 1)
      else
        grow_left_go p ints rt rtPC k
          (upd cats k (if cats k = Cat.PF then Cat.PS else Cat.PF))
    else
      if cats k = Cat.UC ∧ p.peakMinFoldDiff * ints (k + 1) ≥ ints k then
        (solvents_low_rt p ints cats k, k + 1)
      else (cats, k + 1)

/-- Right growth loop of `__feat_peak_analysis__` (lines 340-392), mirroring
`grow_left_go` toward `highest`.  The recursion argument is
`highest - peakHighestIndex` (the loop guard `highestIndex > peakHighestIndex`
is positive iff it is). -/
def grow_right_go (p : PFParams) (ints rt : ℕ → ℚ) (rtPC : ℚ) (highest : ℕ) :
    ℕ → ℕ → (ℕ → Cat) → (ℕ → Cat) × ℕ
  | pHi, 0, cats => (cats, pHi)
  | pHi, g + 1, cats =>
    if ints (pHi + 1) = 0 then (cats, pHi)
    else if round3 (rt (pHi + 1) - rtPC) ≤ round3 (p.peakMaxRTWidth / 2) then
      if p.peakMinFoldDiff * ints (pHi + 1) ≥ ints pHi then
        if p.peakMinFoldDiff * ints pHi ≥ ints (pHi + 1) then
          (solvents_high_rt p ints highest cats (pHi + 1), pHi)
        else (cats, pHi)
      else
        grow_right_go p ints rt rtPC highest (pHi + 1) g
          (upd cats (pHi + 1)
            (if cats (pHi + 1) = Cat.PF then Cat.PS else Cat.PF))
    else
      if cats (pHi + 1) = Cat.UC ∧ p.peakMinFoldDiff * ints pHi ≥ ints (pHi + 1) then
        (solvents_high_rt p ints highest cats (pHi + 1), pHi)
      else (cats, pHi)

/-- Peak concatenation step (lines 393-409): under `concatAllFrames` the
centre's intensity becomes the sum of the slice `[lo, hi]`; otherwise, when
the slice holds at least one `'PF'`, the most intense `'PF'` is added to the
centre. -/
def merge_intensity (p : PFParams) (ints : ℕ → ℚ) (cats : ℕ → Cat)
    (c lo hi : ℕ) : ℕ → ℚ :=
  if p.concatAllFrames then
    upd ints c (((List.range' lo (hi + 1 - lo)).map ints).sum)
  else
    let pfs := (List.range' lo (hi + 1 - lo)).filter fun i => decide (cats i = Cat.PF)
    if 0 < pfs.length then
      upd ints c (ints c + listMax (pfs.map ints))
    else ints

/-- Working state of the categorisation loop: the per-frame categories and
the (mutated) intensity array. -/
structure FPState where
  cats : ℕ → Cat
  ints : ℕ → ℚ

/-- Number of `'--'` entries among indices `< n`
(`sum(peakCategory == '--')`). -/
def countUC (n : ℕ) (cats : ℕ → Cat) : ℕ :=
  ((List.range n).filter fun i => decide (cats i = Cat.UC)).length

/-- Number of zero intensities among indices `< n`
(`numpy.count_nonzero(intensities == 0)`). -/
def countZero (n : ℕ) (ints : ℕ → ℚ) : ℕ :=
  ((List.range n).filter fun i => decide (ints i = 0)).length

/-- Guard of the outer `while` loop (line 135):
`sum(peakCategory == '--') > numpy.count_nonzero(intensities == 0)`. -/
def fp_cond (n : ℕ) (s : FPState) : Bool :=
  decide (countZero n s.ints < countUC n s.cats)

/-- `intensityPeakCat` as observed at line 139: the original intensities with
every categorised position replaced by `-1` (line 136; uncategorised
positions still hold their initial copies from line 132, since only
categorised positions are ever overwritten). -/
def masked_ints (ints0 : ℕ → ℚ) (cats : ℕ → Cat) : ℕ → ℚ := fun i =>
  if cats i ≠ Cat.UC then (-1 : ℚ) else ints0 i

/-- One iteration of the outer `while` loop of `__feat_peak_analysis__`
(lines 135-409): select the most intense uncategorised frame as peak centre,
run the left/right peakiness checks (possibly escaping to the solvent scans),
recentre the RT for wide peaks, retag the slice, grow both flanks, and merge
the peak's intensity into the centre. -/
def fp_body (p : PFParams) (n : ℕ) (ints0 rt : ℕ → ℚ) (s : FPState) : FPState :=
  let highest := n - 1
  let c := argmax_go (masked_ints ints0 s.cats) n
  let cats1 := upd s.cats c Cat.PC
  let L := left_check p s.ints c
  if L.solvent then
    { cats := solvents_high_rt p s.ints highest (solvents_low_rt p s.ints cats1 c) c,
      ints := s.ints }
  else
    let R := right_check p s.ints highest c L.widePeak
    if R.solvent then
      { cats := solvents_high_rt p s.ints highest (solvents_low_rt p s.ints cats1 c) c,
        ints := s.ints }
    else
      let rtPC := recentre_rt rt c R.widePeak
      let cats2 := retag_slice cats1 L.peakLow R.peakHigh
      let gl := if L.framesLeft then grow_left_go p s.ints rt rtPC L.peakLow cats2
                else (cats2, L.peakLow)
      let gr := if R.framesRight then
                  grow_right_go p s.ints rt rtPC highest R.peakHigh
                    (highest - R.peakHigh) gl.1
                else (gl.1, R.peakHigh)
      { cats := gr.1, ints := merge_intensity p s.ints gr.1 c gl.2 gr.2 }

/-- The outer `while` loop, driven by an iteration-count fuel.  The fuel
`n + 1` used by `feat_peak_analysis` is proved sufficient for non-negative
intensities (each iteration categorises at least one frame). -/
def fp_loop (p : PFParams) (n : ℕ) (ints0 rt : ℕ → ℚ) : ℕ → FPState → FPState
  | 0, s => s
  | f + 1, s =>
    if fp_cond n s then fp_loop p n ints0 rt f (fp_body p n ints0 rt s) else s

/-- `PeakFinder.__feat_peak_analysis__`: run the categorisation loop from the
all-uncategorised state, then zero every frame not categorised `'PC'`
(line 411).  Returns the final categories and intensities. -/
def feat_peak_analysis (p : PFParams) (ints0 rt : ℕ → ℚ) (n : ℕ) :
    (ℕ → Cat) × (ℕ → ℚ) :=
  let s := fp_loop p n ints0 rt (n + 1) ⟨fun _ => Cat.UC, ints0⟩
  (s.cats, fun i => if s.cats i = Cat.PC then s.ints i else 0)

/-- `PeakFinder.__single_rep_feature__` (lines 104-109): the analysis runs
only when the replicate holds more than one non-zero intensity; otherwise the
intensities are returned untouched. -/
def single_rep_feature (p : PFParams) (ints0 rt : ℕ → ℚ) (n : ℕ) : ℕ → ℚ :=
  if 1 < n - countZero n ints0 then (feat_peak_analysis p ints0 rt n).2 else ints0

/-!
`Clustering.cluster_by_mz` (Clustering.py lines 35-130).  The input is the
m/z column of the table, sorted ascending (`LFDataFrame.__init__` sorts by
m/z then RT).  The scipy calls `hierarchy.complete` + `hierarchy.fcluster`
are external library code; they are modelled below from scipy's documented
semantics and its longstanding implementation, specialised to sorted
one-dimensional data (see `build_tree_go` and `flat_clusters`, including
`fcluster`'s dendrogram-DFS label order).  Everything else follows the
source line by line.
-/

/-- Inner scan of the sectioning loop (lines 63-78): starting from the first
49 masses (`acc`), keep absorbing the next mass while the gap to it does not
exceed the sum of the two m/z deltas; when the loop stops (`break` at
line 76, or `sectionEnd` reaching `numRowsData - 1`), one further mass is
absorbed (`sectionEnd += 1`, line 78).  Returns the finished section and the
remaining masses. -/
def grow_sec (δ : ℚ → ℚ) : List ℚ → List ℚ → List ℚ × List ℚ
  | acc, [] => (acc, [])
  | acc, [a] => (acc ++ [a], [])
  | acc, a :: b :: t =>
    if b - a > δ a + δ b then (acc ++ [a], b :: t)
    else grow_sec δ (acc ++ [a]) (b :: t)

/-- Outer sectioning loop (lines 62-84): cut off sections while at least the
minimum section size (49) remains; the leftover masses form one final
section.  The fuel argument is the input length, sufficient because each
section consumes at least 49 masses. -/
def mz_sections_go (δ : ℚ → ℚ) : ℕ → List ℚ → List (List ℚ)
  | 0, l => if l.isEmpty then [] else [l]
  | f + 1, l =>
    if 49 ≤ l.length then
      let s := l.splitAt 49
      let gr := grow_sec δ s.1 s.2
      gr.1 :: mz_sections_go δ f gr.2
    else if l.isEmpty then [] else [l]

/-- The cluster sections of the m/z column (`mzClusterSectionID` values). -/
def mz_sections (δ : ℚ → ℚ) (l : List ℚ) : List (List ℚ) :=
  mz_sections_go δ l.length l

/-- A dendrogram subtree.  `cidx` is scipy's cluster index: leaves carry
their observation position (0-based within the section); the cluster formed
by linkage row `i` carries index `m + i` (`m` the section size).  `height`
is the complete-linkage distance at which the two children merged. -/
inductive MTree where
  | leaf (pos : ℕ)
  | node (cidx : ℕ) (height : ℚ) (l r : MTree)
deriving DecidableEq, Repr

/-- An active cluster during agglomeration over sorted 1-D data: its
dendrogram subtree, its scipy cluster index, and its interval bounds (the
smallest and largest m/z it contains; for sorted input every cluster is a
contiguous interval). -/
structure Part where
  tree : MTree
  cidx : ℕ
  lo : ℚ
  hi : ℚ
deriving Repr

/-- Complete-linkage distance of two adjacent interval clusters: the span
of their union (max of the right minus min of the left). -/
def part_span (a b : Part) : ℚ := b.hi - a.lo

/-- Index and value of the minimal complete-linkage distance among adjacent
cluster pairs (`none` when fewer than two clusters remain).  Ties take the
leftmost pair; scipy's tie order is an implementation detail and every
concrete input used below is tie-free. -/
def min_adj_parts : List Part → Option (ℕ × ℚ)
  | [] => none
  | [_] => none
  | a :: b :: t =>
    match min_adj_parts (b :: t) with
    | none => some (0, part_span a b)
    | some (j, d) =>
      if part_span a b ≤ d then some (0, part_span a b) else some (j + 1, d)

/-- Merge the adjacent clusters at positions `j` and `j + 1` into linkage
row `step`: the new cluster has index `m + step` and stores its children in
ascending cluster-index order, as scipy's linkage relabelling sorts every
row `Z[i] = (min(x, y), max(x, y), dist, size)`. -/
def merge_parts (m step : ℕ) : List Part → ℕ → List Part
  | [], _ => []
  | [a], _ => [a]
  | a :: b :: t, 0 =>
    { tree := if a.cidx < b.cidx
              then MTree.node (m + step) (part_span a b) a.tree b.tree
              else MTree.node (m + step) (part_span a b) b.tree a.tree,
      cidx := m + step, lo := a.lo, hi := b.hi } :: t
  | a :: b :: t, j + 1 => a :: merge_parts m step (b :: t) j

/-- Modelled from scipy's documentation and its longstanding
`hierarchy.complete` / `hierarchy.fcluster` implementation (scipy's sources
are not part of this repository; the call is at Clustering.py lines
110-116): agglomerative clustering repeatedly merges the two clusters with
the minimal complete-linkage distance, all the way to a single root
(`linkage` builds the full dendrogram; `fcluster` only cuts it).  For
sorted 1-D input every cluster is a contiguous interval and the globally
minimal complete-linkage distance is always attained by an adjacent pair
(for intervals `I₁ < I₂ < I₃` the complete distance of `I₁, I₃` exceeds
both adjacent ones), so each step merges the adjacent pair of minimal
union span.  `step` counts linkage rows; the fuel is the number of points,
enough as each merge reduces the cluster count by one. -/
def build_tree_go (m : ℕ) : ℕ → ℕ → List Part → List Part
  | _, 0, ps => ps
  | step, f + 1, ps =>
    match min_adj_parts ps with
    | none => ps
    | some (j, _) => build_tree_go m (step + 1) f (merge_parts m step ps j)

/-- Initial singleton clusters of a section: scipy numbers the leaves
`0 .. m-1` in observation order. -/
def init_parts (sec : List ℚ) : List Part :=
  (List.range sec.length).map fun p => ⟨MTree.leaf p, p, sec.getD p 0, sec.getD p 0⟩

/-- The full dendrogram of one section. -/
def build_tree (sec : List ℚ) : MTree :=
  match build_tree_go sec.length 0 sec.length (init_parts sec) with
  | p :: _ => p.tree
  | [] => MTree.leaf 0

/-- Observation positions under a dendrogram subtree. -/
def mtree_leaves : MTree → List ℕ
  | MTree.leaf p => [p]
  | MTree.node _ _ l r => mtree_leaves l ++ mtree_leaves r

/-- Flat clusters at cophenetic cut `t`, in the discovery order of scipy's
`fcluster` (`cluster_monocrit`): a pre-order walk from the root numbers
each maximal subtree whose merge height is at most `t` as it is first
reached, descending into the smaller-cluster-index child first; a leaf
reached with no cluster leader above becomes a singleton cluster at its
visit.  This dendrogram-DFS order is NOT the order of appearance of the
clusters in the section: a later-positioned cluster that formed earlier
(smaller cluster index) is visited, and hence numbered, first. -/
def flat_clusters (t : ℚ) : MTree → List (List ℕ)
  | MTree.leaf p => [[p]]
  | MTree.node _ h l r =>
    if h ≤ t then [mtree_leaves l ++ mtree_leaves r]
    else flat_clusters t l ++ flat_clusters t r

/-- Flat clusters of one section (lines 93-121), in `fcluster` numbering
order: singleton sections take the next cluster ID directly (the source's
explicit shortcut); larger sections are clustered with cut-off
`2 * mz_delta(maxMZ)` where `maxMZ` is the section's largest m/z. -/
def section_flats (fixedE ppmE : ℚ) (sec : List ℚ) : List (List ℕ) :=
  if sec.length = 1 then [[0]]
  else
    let cutoff := 2 * mz_delta (listMax sec) fixedE ppmE
    flat_clusters cutoff (build_tree sec)

/-- `fcluster` labels of one section, per observation position (1-based
within the section): the label of a position is one plus the DFS-discovery
index of the flat cluster containing it. -/
def section_labels (fixedE ppmE : ℚ) (sec : List ℚ) : List ℕ :=
  (List.range sec.length).map fun p =>
    (section_flats fixedE ppmE sec).findIdx (fun cl => cl.contains p) + 1

/-- `mzClusterID` column before the final renumbering pass: each section's
labels shifted by the running offset
(`mzClusters = fcluster(...) + currentMaxClusterID`, lines 115-116), the
offset advancing by the section's number of flat clusters
(`currentMaxClusterID += len(set(mzClusters))`, line 121). -/
def all_labels (fixedE ppmE : ℚ) : ℕ → List (List ℚ) → List ℕ
  | _, [] => []
  | off, sec :: rest =>
    (section_labels fixedE ppmE sec).map (· + off)
      ++ all_labels fixedE ppmE (off + (section_flats fixedE ppmE sec).length) rest

/-- The `mzClusterID` column as it stands after the per-section clustering
(lines 90-121), before the renumbering pass. -/
def pre_labels (fixedE ppmE : ℚ) (mzs : List ℚ) : List ℕ :=
  all_labels fixedE ppmE 0 (mz_sections (fun m => mz_delta m fixedE ppmE) mzs)

/-- Failure of `cluster_by_mz`: the final write
`clusterIDs[numRowsData - 1] = id` (line 130) indexes position `-1` of the
array, which numpy rejects (`IndexError`) when the array is empty. -/
inductive MzClusterErr where
  | indexOutOfBounds
deriving DecidableEq, Repr

/-- Renumbering loop (lines 124-129): write the running ID at each position,
then compare the value just written with the old value of the next position
to decide whether to start a new ID. -/
def renum_go : ℕ → List ℕ → List ℕ
  | _, [] => []
  | k, [_] => [k]
  | k, _ :: y :: t => k :: renum_go (if k ≠ y then k + 1 else k) (y :: t)

/-- Renumbering pass (lines 122-130).  The trailing write
`clusterIDs[numRowsData - 1] = id` fails on an empty table (numpy index `-1`
into a size-0 array); on a non-empty table it writes the running ID at the
last position, which `renum_go` already does. -/
def renumber : List ℕ → Except MzClusterErr (List ℕ)
  | [] => Except.error MzClusterErr.indexOutOfBounds
  | l => Except.ok (renum_go 1 l)

/-- `Clustering.cluster_by_mz` on the sorted m/z column: sectioning,
per-section complete-linkage clustering, then the renumbering pass. -/
def cluster_by_mz (fixedE ppmE : ℚ) (mzs : List ℚ) : Except MzClusterErr (List ℕ) :=
  renumber (pre_labels fixedE ppmE mzs)

/-- Loop of `Clustering.cluster_by_features` (lines 166-173) on the rows
sorted by `(mzClusterID, RT, m/z)`: write the running feature-cluster ID,
and start a new ID after each row whose `mzClusterID` differs from the next
row's or whose RT gap to the next row exceeds `maxRTDiffAdjFrame`.  Each row
is a pair (mzClusterID, retention time). -/
def fc_go (thr : ℚ) : ℕ → List (ℕ × ℚ) → List ℕ
  | _, [] => []
  | k, [_] => [k]
  | k, (m1, r1) :: (m2, r2) :: t =>
    k :: fc_go thr (if m1 ≠ m2 ∨ r2 - r1 > thr then k + 1 else k) ((m2, r2) :: t)

/-- `Clustering.cluster_by_features`: the `FeatureClusterID` column. -/
def cluster_by_features (thr : ℚ) (rows : List (ℕ × ℚ)) : List ℕ :=
  fc_go thr 1 rows

/-- The tracked intensity columns of a row:
`self.iloc[:, firstIndex : lastIndex]` in `LFDataFrame.drop_empty_frames`. -/
def tracked_slice (first last : ℕ) (row : List ℚ) : List ℚ :=
  (row.drop first).take (last - first)

/-- `LFDataFrame.drop_empty_frames` line 178: a frame is empty when every
tracked intensity column equals zero. -/
def empty_frame (first last : ℕ) (row : List ℚ) : Bool :=
  (tracked_slice first last row).all fun x => decide (x = 0)

/-- `LFDataFrame.drop_empty_frames` (lines 150-183, `means=False` as called
by `process_features`): drop every row whose tracked intensity columns are
all zero. -/
def drop_empty_frames (first last : ℕ) (rows : List (List ℚ)) : List (List ℚ) :=
  rows.filter fun r => !(empty_frame first last r)

/-! Concrete inputs used by the scenario theorems and witnesses. -/

/-- Parameters of the spec's Scenarios B and C: `peakMinFoldDifference = 2`,
`peakMaxRTWidth = 0.3`, default merge policy. -/
def paramsB : PFParams := ⟨2, 3/10, false⟩

/-- Scenario B replicate intensities `[10, 100, 90, 5, 0]`. -/
def intsB : ℕ → ℚ := fun i => ([10, 100, 90, 5, 0] : List ℚ).getD i 0

/-- Scenario B retention times `[1.0, 1.05, 1.10, 1.15, 1.20]`. -/
def rtB : ℕ → ℚ := fun i => ([1, 21/20, 11/10, 23/20, 6/5] : List ℚ).getD i 0

/-- Scenario C replicate intensities `[50, 48]`. -/
def intsC : ℕ → ℚ := fun i => ([50, 48] : List ℚ).getD i 0

/-- Retention times for the Scenario C cluster (the outcome does not depend
on them: both growth loops are skipped). -/
def rtC : ℕ → ℚ := fun i => ([1, 21/20] : List ℚ).getD i 0

/-! Theorems. -/

/-- C5: for the Scenario B cluster (intensities `[10, 100, 90, 5, 0]`, RTs
`[1.0, 1.05, 1.10, 1.15, 1.20]`, `peakMaxRTWidth = 0.3`,
`peakMinFoldDiff = 2`, default merge policy), frame 1 (intensity 100) is
designated `PeakCentre`, its final intensity is `100 + 90 = 190` (100 plus
the most intense remaining `PeakFrame`, frames 0, 2 and 3 being the
`PeakFrame`s), and every other frame of the replicate is zeroed. -/
theorem scenario_b_consolidation :
    (feat_peak_analysis paramsB intsB rtB 5).1 1 = Cat.PC
    ∧ (feat_peak_analysis paramsB intsB rtB 5).1 0 = Cat.PF
    ∧ (feat_peak_analysis paramsB intsB rtB 5).1 2 = Cat.PF
    ∧ (feat_peak_analysis paramsB intsB rtB 5).1 3 = Cat.PF
    ∧ (feat_peak_analysis paramsB intsB rtB 5).2 1 = 190
    ∧ (feat_peak_analysis paramsB intsB rtB 5).2 0 = 0
    ∧ (feat_peak_analysis paramsB intsB rtB 5).2 2 = 0
    ∧ (feat_peak_analysis paramsB intsB rtB 5).2 3 = 0
    ∧ (feat_peak_analysis paramsB intsB rtB 5).2 4 = 0 := by decide

/-- C2 counterexample: on the 2-frame cluster `[50, 48]` with
`peakMinFoldDiff = 2`, the state machine does not tag both frames
`SolventFrame` and does emit a `PeakCentre`: frame 0 is designated
`PeakCentre` and keeps the merged non-zero intensity 98, contradicting the
claimed all-`SolventFrame`, all-zero, no-centre outcome. -/
theorem scenario_c_claim_fails :
    (feat_peak_analysis paramsB intsC rtC 2).1 0 = Cat.PC
    ∧ (feat_peak_analysis paramsB intsC rtC 2).2 0 = 98 := by decide

/-- C2 amended: on the 2-frame cluster `[50, 48]` with
`peakMinFoldDiff = 2`, the fold test flags a potential wide peak on the
right, but with no frame at index `c + 2` the solvent path is unreachable
(it needs the second fold test); the machine tags frame 0 `PeakCentre` and
frame 1 `PeakFrame`, merges them into the centre (final intensities
`[98, 0]`). -/
theorem scenario_c_outcome :
    (feat_peak_analysis paramsB intsC rtC 2).1 0 = Cat.PC
    ∧ (feat_peak_analysis paramsB intsC rtC 2).1 1 = Cat.PF
    ∧ (feat_peak_analysis paramsB intsC rtC 2).2 0 = 98
    ∧ (feat_peak_analysis paramsB intsC rtC 2).2 1 = 0 := by decide

/-- C1: after `__feat_peak_analysis__` completes, every frame whose final
intensity is non-zero is one designated `PeakCentre`; equivalently all
frames in other categories (and all still-uncategorised frames) hold zero,
by the final zeroing of every non-`'PC'` position (line 411). -/
theorem nonzero_final_intensity_is_peak_centre (p : PFParams) (ints0 rt : ℕ → ℚ)
    (n i : ℕ) (h : (feat_peak_analysis p ints0 rt n).2 i ≠ 0) :
    (feat_peak_analysis p ints0 rt n).1 i = Cat.PC := by
  by_contra hne
  apply h
  unfold feat_peak_analysis at hne ⊢
  dsimp only at hne ⊢
  rw [if_neg hne]

/-- Witness for C1 at the Scenario B input: frame 1 ends with intensity
190 ≠ 0 and is indeed the designated `PeakCentre`. -/
theorem nonzero_final_intensity_is_peak_centre_witness :
    (feat_peak_analysis paramsB intsB rtB 5).2 1 ≠ 0
    ∧ (feat_peak_analysis paramsB intsB rtB 5).1 1 = Cat.PC :=
  ⟨by decide, nonzero_final_intensity_is_peak_centre paramsB intsB rtB 5 1 (by decide)⟩

/-- C10: with the fold test flagging a potential wide peak on the left and
no usable frame at `c - 2`, the left check sets `widePeak = "Left"` and the
peak-centre RT is recentred to the midpoint of the two tied frames; in the
mirrored right-boundary situation the right check leaves `widePeak` unset,
so the RT used by the subsequent width-limit checks stays the original
centre's. -/
theorem wide_peak_boundary_asymmetry (p : PFParams) (ints rt : ℕ → ℚ) (c : ℕ)
    (p2 : PFParams) (ints2 rt2 : ℕ → ℚ) (c2 highest2 : ℕ)
    (h1 : 0 < c) (h2 : ints (c - 1) ≠ 0)
    (h3 : p.peakMinFoldDiff * ints (c - 1) ≥ ints c)
    (h4 : ¬(1 < c ∧ ints (c - 2) ≠ 0))
    (g1 : c2 < highest2) (g2 : ints2 (c2 + 1) ≠ 0)
    (g3 : p2.peakMinFoldDiff * ints2 (c2 + 1) ≥ ints2 c2)
    (g4 : ¬(c2 + 1 < highest2 ∧ ints2 (c2 + 2) ≠ 0)) :
    (left_check p ints c).widePeak = wideLeft
    ∧ recentre_rt rt c (left_check p ints c).widePeak = (rt c + rt (c - 1)) / 2
    ∧ (right_check p2 ints2 highest2 c2 none).widePeak = none
    ∧ recentre_rt rt2 c2 ((right_check p2 ints2 highest2 c2 none).widePeak) = rt2 c2 := by
  have e1 : left_check p ints c = ⟨false, wideLeft, c - 1, false⟩ := by
    unfold left_check
    rw [if_pos ⟨h1, h2⟩, if_pos h3, if_neg h4]
  have e2 : right_check p2 ints2 highest2 c2 none = ⟨false, none, c2 + 1, false⟩ := by
    unfold right_check
    rw [if_pos ⟨g1, g2⟩, if_pos g3,
      if_neg (show ¬((none : Option Bool) ≠ none) by simp), if_neg g4]
  refine ⟨by rw [e1], by rw [e1]; rfl, by rw [e2], by rw [e2]; rfl⟩

/-- Intensities realising the left-boundary wide-peak case (`c = 1`). -/
def intsL : ℕ → ℚ := fun i => ([40, 50] : List ℚ).getD i 0

/-- Intensities realising the right-boundary case (`c = 0`,
`highest = 1`). -/
def intsR : ℕ → ℚ := fun i => ([50, 40] : List ℚ).getD i 0

/-- Witness for C10 at a 2-frame left instance (`[40, 50]`, centre 1) and
the mirrored right instance (`[50, 40]`, centre 0). -/
theorem wide_peak_boundary_asymmetry_witness :
    (0 < 1 ∧ intsL 0 ≠ 0 ∧ paramsB.peakMinFoldDiff * intsL 0 ≥ intsL 1
      ∧ ¬(1 < 1 ∧ intsL (1 - 2) ≠ 0)
      ∧ 0 < 1 ∧ intsR 1 ≠ 0 ∧ paramsB.peakMinFoldDiff * intsR 1 ≥ intsR 0
      ∧ ¬(0 + 1 < 1 ∧ intsR 2 ≠ 0))
    ∧ ((left_check paramsB intsL 1).widePeak = wideLeft
      ∧ recentre_rt rtC 1 (left_check paramsB intsL 1).widePeak = (rtC 1 + rtC 0) / 2
      ∧ (right_check paramsB intsR 1 0 none).widePeak = none
      ∧ recentre_rt rtC 0 ((right_check paramsB intsR 1 0 none).widePeak) = rtC 0) :=
  ⟨by decide,
    wide_peak_boundary_asymmetry paramsB intsL rtC 1 paramsB intsR rtC 0 1
      (by decide) (by decide) (by decide) (by decide)
      (by decide) (by decide) (by decide) (by decide)⟩

/-- Head of the feature-cluster ID list: the running ID on entry. -/
theorem fc_go_head (thr : ℚ) (k : ℕ) (x : ℕ × ℚ) (t : List (ℕ × ℚ)) :
    (fc_go thr k (x :: t)).getD 0 0 = k := by
  rcases x with ⟨m1, r1⟩
  cases t with
  | nil => rfl
  | cons y t2 => rcases y with ⟨m2, r2⟩; rfl

/-- Boundary characterisation of the feature-cluster scan, for any running
ID. -/
theorem fc_go_boundary (thr : ℚ) :
    ∀ (l : List (ℕ × ℚ)) (k i : ℕ), i + 1 < l.length →
      ((fc_go thr k l).getD (i + 1) 0 ≠ (fc_go thr k l).getD i 0
        ↔ ((l.getD i (0, 0)).1 ≠ (l.getD (i + 1) (0, 0)).1
            ∨ (l.getD (i + 1) (0, 0)).2 - (l.getD i (0, 0)).2 > thr)) := by
  intro l
  induction l with
  | nil => intro k i h; simp at h
  | cons a t ih =>
    rcases a with ⟨m1, r1⟩
    intro k i h
    cases t with
    | nil => simp at h
    | cons b t2 =>
      rcases b with ⟨m2, r2⟩
      cases i with
      | zero =>
        show ((fc_go thr _ ((m2, r2) :: t2)).getD 0 0 ≠ k ↔ _)
        rw [fc_go_head]
        by_cases hc : m1 ≠ m2 ∨ r2 - r1 > thr
        · simp only [if_pos hc]
          simp only [List.getD_cons_zero, List.getD_cons_succ]
          constructor
          · intro _; exact hc
          · intro _; omega
        · simp only [if_neg hc]
          simp only [List.getD_cons_zero, List.getD_cons_succ]
          constructor
          · intro hk; exact absurd rfl hk
          · intro hcc; exact absurd hcc hc
      | succ j =>
        have h2 : j + 1 < ((m2, r2) :: t2).length := by
          simp only [List.length_cons] at h ⊢; omega
        have := ih (if m1 ≠ m2 ∨ r2 - r1 > thr then k + 1 else k) j h2
        simpa [fc_go] using this

/-- C4: after `cluster_by_features` on the rows sorted by
`(mzClusterID, RT, m/z)`, two consecutive rows receive different
`FeatureClusterID`s iff their `mzClusterID`s differ or the RT gap between
them strictly exceeds `maxRTDiffAdjFrame`; otherwise they share the ID. -/
theorem feature_cluster_boundary_iff (thr : ℚ) (l : List (ℕ × ℚ)) (i : ℕ)
    (h : i + 1 < l.length) :
    ((cluster_by_features thr l).getD (i + 1) 0
        ≠ (cluster_by_features thr l).getD i 0
      ↔ ((l.getD i (0, 0)).1 ≠ (l.getD (i + 1) (0, 0)).1
          ∨ (l.getD (i + 1) (0, 0)).2 - (l.getD i (0, 0)).2 > thr)) :=
  fc_go_boundary thr l 1 i h

/-- Witness for C4 on three rows: a boundary from an RT gap (10 > 1)
between rows 0 and 1, and none required between equal-cluster close rows. -/
theorem feature_cluster_boundary_iff_witness :
    0 + 1 < ([((1 : ℕ), (0 : ℚ)), (1, 10), (2, 10)]).length
    ∧ ((cluster_by_features 1 [((1 : ℕ), (0 : ℚ)), (1, 10), (2, 10)]).getD 1 0
          ≠ (cluster_by_features 1 [((1 : ℕ), (0 : ℚ)), (1, 10), (2, 10)]).getD 0 0
        ↔ ((([((1 : ℕ), (0 : ℚ)), (1, 10), (2, 10)]).getD 0 (0, 0)).1
              ≠ (([((1 : ℕ), (0 : ℚ)), (1, 10), (2, 10)]).getD 1 (0, 0)).1
            ∨ (([((1 : ℕ), (0 : ℚ)), (1, 10), (2, 10)]).getD 1 (0, 0)).2
              - (([((1 : ℕ), (0 : ℚ)), (1, 10), (2, 10)]).getD 0 (0, 0)).2 > 1)) :=
  ⟨by decide, feature_cluster_boundary_iff 1 [((1 : ℕ), (0 : ℚ)), (1, 10), (2, 10)] 0 (by decide)⟩

/-- C9: `drop_empty_frames` is idempotent, and a row survives it exactly
when it was in the table and some tracked intensity column is non-zero. -/
theorem drop_empty_frames_idempotent_iff (first last : ℕ) (rows : List (List ℚ)) :
    drop_empty_frames first last (drop_empty_frames first last rows)
      = drop_empty_frames first last rows
    ∧ ∀ r : List ℚ, r ∈ drop_empty_frames first last rows
        ↔ r ∈ rows ∧ ∃ x ∈ tracked_slice first last r, x ≠ 0 := by
  constructor
  · unfold drop_empty_frames
    rw [List.filter_filter]
    congr 1
    funext r
    rw [Bool.and_self]
  · intro r
    simp only [drop_empty_frames, List.mem_filter, Bool.not_eq_true', empty_frame,
      List.all_eq_false, decide_eq_true_eq]

/-- C7 counterexample: `mz_delta` (and `mz_tol_range`) performs no
validation: at a negative `fixederr` it returns the ordinary value `-1`
instead of failing, and the returned window is inverted (`high < low`). -/
theorem mz_delta_negative_error_returns :
    mz_delta 100 (-1) 0 = -1
    ∧ (mz_tol_range 100 (-1) 0).2 < (mz_tol_range 100 (-1) 0).1 := by decide

/-- The rounding function never drops below the floor, nor above floor + 1. -/
theorem roundHE_bounds (z : ℚ) : ⌊z⌋ ≤ roundHE z ∧ roundHE z ≤ ⌊z⌋ + 1 := by
  unfold roundHE
  dsimp only
  split_ifs <;> omega

/-- The rounding function is non-negative on non-negative input. -/
theorem roundHE_nonneg {x : ℚ} (hx : 0 ≤ x) : 0 ≤ roundHE x := by
  have h := (roundHE_bounds x).1
  have h0 : (0 : ℤ) ≤ ⌊x⌋ := Int.floor_nonneg.mpr hx
  omega

/-- The rounding function is monotone. -/
theorem roundHE_mono {x y : ℚ} (h : x ≤ y) : roundHE x ≤ roundHE y := by
  have hf := Int.floor_le_floor h
  rcases eq_or_lt_of_le hf with hf | hf
  · unfold roundHE
    dsimp only
    rw [← hf]
    have hr : x - (⌊x⌋ : ℚ) ≤ y - (⌊x⌋ : ℚ) := by linarith
    split_ifs <;> first | omega | linarith
  · have h1 := (roundHE_bounds x).2
    have h2 := (roundHE_bounds y).1
    omega

/-- `roundP` is non-negative on non-negative input. -/
theorem roundP_nonneg (p : ℕ) {x : ℚ} (hx : 0 ≤ x) : 0 ≤ roundP p x := by
  unfold roundP
  have h1 : (0 : ℤ) ≤ roundHE (x * (10 : ℚ) ^ p) :=
    roundHE_nonneg (mul_nonneg hx (by positivity))
  have h2 : (0 : ℚ) ≤ (roundHE (x * (10 : ℚ) ^ p) : ℚ) := by exact_mod_cast h1
  positivity

/-- `roundP` is monotone. -/
theorem roundP_mono (p : ℕ) {x y : ℚ} (h : x ≤ y) : roundP p x ≤ roundP p y := by
  unfold roundP
  have h1 : roundHE (x * (10 : ℚ) ^ p) ≤ roundHE (y * (10 : ℚ) ^ p) :=
    roundHE_mono (mul_le_mul_of_nonneg_right h (by positivity))
  have h2 : ((roundHE (x * (10 : ℚ) ^ p) : ℤ) : ℚ) ≤ (roundHE (y * (10 : ℚ) ^ p) : ℚ) := by
    exact_mod_cast h1
  gcongr

/-- C7 amended: `mz_delta` and `mz_tol_range` perform no domain validation
and return normally on any numeric input (the repository defines no
`InvalidParameterError`); on the documented domain (non-negative fixed and
PPM errors, non-negative m/z) the delta is non-negative and the window is
correctly ordered. -/
theorem mz_delta_nonneg_window (mz fixederr ppmerr : ℚ)
    (hf : 0 ≤ fixederr) (hp : 0 ≤ ppmerr) (hm : 0 ≤ mz) :
    0 ≤ mz_delta mz fixederr ppmerr
    ∧ (mz_tol_range mz fixederr ppmerr).1 ≤ (mz_tol_range mz fixederr ppmerr).2 := by
  have hd : 0 ≤ mz_delta mz fixederr ppmerr := by
    unfold mz_delta
    exact roundP_nonneg 5
      (add_nonneg hf (mul_nonneg (mul_nonneg hm hp) (by norm_num)))
  refine ⟨hd, ?_⟩
  unfold mz_tol_range
  dsimp only
  exact roundP_mono 5 (by linarith)

/-- Witness for C7's amended statement at `mz = 100`, `fixederr = 1/2`,
`ppmerr = 5`. -/
theorem mz_delta_nonneg_window_witness :
    ((0 : ℚ) ≤ 1/2 ∧ (0 : ℚ) ≤ 5 ∧ (0 : ℚ) ≤ 100)
    ∧ (0 ≤ mz_delta 100 (1/2) 5
      ∧ (mz_tol_range 100 (1/2) 5).1 ≤ (mz_tol_range 100 (1/2) 5).2) :=
  ⟨by norm_num,
    mz_delta_nonneg_window 100 (1/2) 5 (by norm_num) (by norm_num) (by norm_num)⟩

/-- C8 counterexample: `cluster_by_mz` on an empty table does not return
normally: the final renumbering write `clusterIDs[numRowsData - 1] = id`
indexes position `-1` of a size-0 array and numpy raises `IndexError`. -/
theorem cluster_by_mz_empty_table_errors :
    cluster_by_mz 0 0 ([] : List ℚ) = Except.error MzClusterErr.indexOutOfBounds := by
  decide

/-- C8 amended: a single-frame table returns normally with the trivial
output `[1]` (every array access in bounds); only the empty table fails, at
the final renumbering write. -/
theorem cluster_by_mz_single_frame (fixedE ppmE mz : ℚ) :
    cluster_by_mz fixedE ppmE [mz] = Except.ok [1] := rfl

/-!
Monotonicity of the categorisation: no operation of the loop body ever
writes `'--'`, so a tagged frame never returns to uncategorised.
-/

/-- `Keeps old new`: every position uncategorised in `new` was already
uncategorised in `old`. -/
def Keeps (old new : ℕ → Cat) : Prop := ∀ i, new i = Cat.UC → old i = Cat.UC

/-- `Keeps` is reflexive. -/
theorem keeps_refl (f : ℕ → Cat) : Keeps f f := fun _ h => h

/-- `Keeps` composes. -/
theorem keeps_trans {f g k : ℕ → Cat} (h1 : Keeps f g) (h2 : Keeps g k) : Keeps f k :=
  fun i hi => h1 i (h2 i hi)

/-- Writing any category other than `'--'` keeps tagged frames tagged. -/
theorem keeps_upd {f : ℕ → Cat} {j : ℕ} {v : Cat} (hv : v ≠ Cat.UC) :
    Keeps f (upd f j v) := by
  intro i hi
  unfold upd at hi
  by_cases hij : i = j
  · rw [if_pos hij] at hi
    exact absurd hi hv
  · rwa [if_neg hij] at hi

/-- The low solvent walk only writes `'SF'`. -/
theorem keeps_solvents_low_go (p : PFParams) (ints : ℕ → ℚ) :
    ∀ (k : ℕ) (cats : ℕ → Cat), Keeps cats (solvents_low_go p ints k cats) := by
  intro k
  induction k with
  | zero => intro cats; exact keeps_refl cats
  | succ m ih =>
    intro cats
    unfold solvents_low_go
    split_ifs with h1 h2
    · exact keeps_trans (keeps_upd (by decide)) (ih _)
    · exact keeps_refl cats
    · exact keeps_refl cats

/-- `__solvents_low_rt__` only writes `'SF'`. -/
theorem keeps_solvents_low_rt (p : PFParams) (ints : ℕ → ℚ) (cats : ℕ → Cat)
    (pLI : ℕ) : Keeps cats (solvents_low_rt p ints cats pLI) :=
  keeps_trans (keeps_upd (by decide)) (keeps_solvents_low_go p ints pLI _)

/-- The high solvent walk only writes `'SF'`. -/
theorem keeps_solvents_high_go (p : PFParams) (ints : ℕ → ℚ) :
    ∀ (g pHI : ℕ) (cats : ℕ → Cat), Keeps cats (solvents_high_go p ints pHI g cats) := by
  intro g
  induction g with
  | zero => intro pHI cats; exact keeps_refl cats
  | succ m ih =>
    intro pHI cats
    unfold solvents_high_go
    split_ifs with h1 h2
    · exact keeps_trans (keeps_upd (by decide)) (ih _ _)
    · exact keeps_refl cats
    · exact keeps_refl cats

/-- `__solvents_high_rt__` only writes `'SF'`. -/
theorem keeps_solvents_high_rt (p : PFParams) (ints : ℕ → ℚ) (highest : ℕ)
    (cats : ℕ → Cat) (pHI : ℕ) : Keeps cats (solvents_high_rt p ints highest cats pHI) :=
  keeps_trans (keeps_upd (by decide)) (keeps_solvents_high_go p ints _ _ _)

/-- The slice retagging writes only `'PS'` and `'PF'`. -/
theorem keeps_retag (cats : ℕ → Cat) (lo hi : ℕ) :
    Keeps cats (retag_slice cats lo hi) := by
  intro i h
  unfold retag_slice retag_pass1 at h
  split_ifs at h
  first | exact Cat.noConfusion h | exact h

/-- The left growth loop writes only `'PF'`, `'PS'` and `'SF'`. -/
theorem keeps_grow_left_go (p : PFParams) (ints rt : ℕ → ℚ) (rtPC : ℚ) :
    ∀ (k : ℕ) (cats : ℕ → Cat), Keeps cats (grow_left_go p ints rt rtPC k cats).1 := by
  intro k
  induction k with
  | zero => intro cats; exact keeps_refl cats
  | succ m ih =>
    intro cats
    unfold grow_left_go
    split_ifs <;>
      first
        | exact keeps_refl cats
        | exact keeps_solvents_low_rt p ints cats m
        | exact keeps_trans (keeps_upd (by decide)) (ih _)

/-- The right growth loop writes only `'PF'`, `'PS'` and `'SF'`. -/
theorem keeps_grow_right_go (p : PFParams) (ints rt : ℕ → ℚ) (rtPC : ℚ)
    (highest : ℕ) :
    ∀ (g pHi : ℕ) (cats : ℕ → Cat),
      Keeps cats (grow_right_go p ints rt rtPC highest pHi g cats).1 := by
  intro g
  induction g with
  | zero => intro pHi cats; exact keeps_refl cats
  | succ m ih =>
    intro pHi cats
    unfold grow_right_go
    split_ifs <;>
      first
        | exact keeps_refl cats
        | exact keeps_solvents_high_rt p ints highest cats (pHi + 1)
        | exact keeps_trans (keeps_upd (by decide)) (ih _ _)

/-- The whole loop body never untags a frame, relative to the state right
after the peak centre was tagged. -/
theorem fp_body_keeps (p : PFParams) (n : ℕ) (ints0 rt : ℕ → ℚ) (s : FPState) :
    Keeps (upd s.cats (argmax_go (masked_ints ints0 s.cats) n) Cat.PC)
      (fp_body p n ints0 rt s).cats := by
  unfold fp_body
  dsimp only
  split_ifs <;>
    first
      | exact keeps_trans (keeps_solvents_low_rt _ _ _ _) (keeps_solvents_high_rt _ _ _ _ _)
      | exact keeps_trans (keeps_retag _ _ _)
          (keeps_trans (keeps_grow_left_go _ _ _ _ _ _) (keeps_grow_right_go _ _ _ _ _ _ _ _))
      | exact keeps_trans (keeps_retag _ _ _) (keeps_grow_left_go _ _ _ _ _ _)
      | exact keeps_trans (keeps_retag _ _ _) (keeps_grow_right_go _ _ _ _ _ _ _ _)
      | exact keeps_retag _ _ _

/-- The loop body never untags a frame. -/
theorem fp_body_no_untag (p : PFParams) (n : ℕ) (ints0 rt : ℕ → ℚ) (s : FPState) :
    Keeps s.cats (fp_body p n ints0 rt s).cats :=
  keeps_trans (keeps_upd (by decide)) (fp_body_keeps p n ints0 rt s)

/-- After the loop body, the selected peak centre index is categorised. -/
theorem fp_body_argmax_tagged (p : PFParams) (n : ℕ) (ints0 rt : ℕ → ℚ) (s : FPState) :
    (fp_body p n ints0 rt s).cats (argmax_go (masked_ints ints0 s.cats) n) ≠ Cat.UC := by
  intro h
  have h2 := fp_body_keeps p n ints0 rt s _ h
  unfold upd at h2
  rw [if_pos rfl] at h2
  exact Cat.noConfusion h2

/-- `numpy.argmax` returns an index in range (for a non-empty array). -/
theorem argmax_go_lt (f : ℕ → ℚ) : ∀ n : ℕ, 0 < n → argmax_go f n < n := by
  intro n
  induction n with
  | zero => intro h; omega
  | succ m ih =>
    intro _
    unfold argmax_go
    dsimp only
    split_ifs with h
    · omega
    · rcases Nat.eq_zero_or_pos m with rfl | hm
      · show argmax_go f 0 < 1
        unfold argmax_go
        omega
      · exact lt_trans (ih hm) (Nat.lt_succ_self m)

/-- `numpy.argmax` attains the maximum. -/
theorem argmax_go_ge (f : ℕ → ℚ) : ∀ n i : ℕ, i < n → f i ≤ f (argmax_go f n) := by
  intro n
  induction n with
  | zero => intro i h; omega
  | succ m ih =>
    intro i h
    unfold argmax_go
    dsimp only
    split_ifs with hgt
    · rcases Nat.lt_succ_iff_lt_or_eq.mp h with h2 | rfl
      · exact le_of_lt (lt_of_le_of_lt (ih i h2) hgt)
      · exact le_refl _
    · rcases Nat.lt_succ_iff_lt_or_eq.mp h with h2 | rfl
      · exact ih i h2
      · exact le_of_not_lt hgt

/-- Pointwise monotone categorisation cannot increase the uncategorised
count. -/
theorem countP_le_of_keeps (f g : ℕ → Cat) (hk : Keeps f g) :
    ∀ L : List ℕ, (L.filter fun i => decide (g i = Cat.UC)).length
      ≤ (L.filter fun i => decide (f i = Cat.UC)).length := by
  intro L
  induction L with
  | nil => simp
  | cons a t ih =>
    by_cases hg : g a = Cat.UC
    · have hf : f a = Cat.UC := hk a hg
      simp [List.filter_cons, hg, hf]
      omega
    · by_cases hf : f a = Cat.UC
      · simp [List.filter_cons, hg, hf]
        omega
      · simp only [List.filter_cons]
        rw [if_neg (by simp [hg]), if_neg (by simp [hf])]
        exact ih

/-- Tagging a previously uncategorised position strictly decreases the
uncategorised count over any index list containing it. -/
theorem count_lt_of_flip (f g : ℕ → Cat) (hk : Keeps f g) (j : ℕ)
    (hfj : f j = Cat.UC) (hgj : g j ≠ Cat.UC) :
    ∀ L : List ℕ, j ∈ L →
      (L.filter fun i => decide (g i = Cat.UC)).length
        < (L.filter fun i => decide (f i = Cat.UC)).length := by
  intro L
  induction L with
  | nil => intro h; cases h
  | cons a t ih =>
    intro hmem
    rcases List.mem_cons.mp hmem with rfl | hmem
    · have h1 := countP_le_of_keeps f g hk t
      simp only [List.filter_cons]
      rw [if_neg (by simp [hgj]), if_pos (by simp [hfj])]
      simp only [List.length_cons]
      omega
    · by_cases hg : g a = Cat.UC
      · have hf : f a = Cat.UC := hk a hg
        have h1 := ih hmem
        simp [List.filter_cons, hf, hg]
        omega
      · by_cases hf : f a = Cat.UC
        · have h1 := ih hmem
          simp [List.filter_cons, hf, hg]
          omega
        · simp only [List.filter_cons]
          rw [if_neg (by simp [hg]), if_neg (by simp [hf])]
          exact ih hmem

/-- The masked intensity of a categorised position is `-1`. -/
theorem masked_ints_of_ne {ints0 : ℕ → ℚ} {cats : ℕ → Cat} {i : ℕ}
    (h : cats i ≠ Cat.UC) : masked_ints ints0 cats i = -1 := by
  unfold masked_ints
  rw [if_pos h]

/-- The masked intensity of an uncategorised position is its original
intensity. -/
theorem masked_ints_of_eq {ints0 : ℕ → ℚ} {cats : ℕ → Cat} {i : ℕ}
    (h : cats i = Cat.UC) : masked_ints ints0 cats i = ints0 i := by
  unfold masked_ints
  rw [if_neg (by simp [h])]

/-- Each iteration of the categorisation loop strictly decreases the number
of uncategorised frames (for non-negative intensities the selected peak
centre was uncategorised). -/
theorem countUC_decreases (p : PFParams) (n : ℕ) (ints0 rt : ℕ → ℚ)
    (h0 : ∀ i, 0 ≤ ints0 i) (s : FPState) (hc : fp_cond n s = true) :
    countUC n (fp_body p n ints0 rt s).cats < countUC n s.cats := by
  have hlt : countZero n s.ints < countUC n s.cats := of_decide_eq_true hc
  have hpos : 0 < countUC n s.cats := lt_of_le_of_lt (Nat.zero_le _) hlt
  unfold countUC at hpos
  obtain ⟨x, hx⟩ := List.exists_mem_of_ne_nil _ (List.ne_nil_of_length_pos hpos)
  have hx2 := List.mem_filter.mp hx
  have hj : s.cats x = Cat.UC := of_decide_eq_true hx2.2
  have hjn : x < n := List.mem_range.mp hx2.1
  have hcn : argmax_go (masked_ints ints0 s.cats) n < n :=
    argmax_go_lt _ n (lt_of_le_of_lt (Nat.zero_le x) hjn)
  have hge := argmax_go_ge (masked_ints ints0 s.cats) n x hjn
  have hcUC : s.cats (argmax_go (masked_ints ints0 s.cats) n) = Cat.UC := by
    by_contra hne
    have h1 := @masked_ints_of_ne ints0 s.cats _ hne
    have h2 := @masked_ints_of_eq ints0 s.cats x hj
    have h3 := h0 x
    rw [h1, h2] at hge
    linarith
  unfold countUC
  exact count_lt_of_flip s.cats _ (fp_body_no_untag p n ints0 rt s) _ hcUC
    (fp_body_argmax_tagged p n ints0 rt s) (List.range n) (List.mem_range.mpr hcn)

/-- With fuel exceeding the uncategorised count, the loop reaches a state
falsifying its guard. -/
theorem fp_loop_exits (p : PFParams) (n : ℕ) (ints0 rt : ℕ → ℚ)
    (h0 : ∀ i, 0 ≤ ints0 i) :
    ∀ (f : ℕ) (s : FPState), countUC n s.cats < f →
      fp_cond n (fp_loop p n ints0 rt f s) = false := by
  intro f
  induction f with
  | zero => intro s h; omega
  | succ m ih =>
    intro s h
    unfold fp_loop
    by_cases hc : fp_cond n s = true
    · rw [if_pos hc]
      refine ih _ ?_
      have := countUC_decreases p n ints0 rt h0 s hc
      omega
    · rw [if_neg hc]
      exact Bool.eq_false_iff.mpr hc

/-- The Scenario B intensities are non-negative. -/
theorem intsB_nonneg : ∀ i, 0 ≤ intsB i := by
  intro i
  unfold intsB
  rcases i with _ | _ | _ | _ | _ | k
  · decide
  · decide
  · decide
  · decide
  · decide
  · rw [List.getD_eq_default]
    simp

/-- C6: the per-replicate categorisation loop terminates on every finite
array of non-negative intensities: each iteration whose guard holds
categorises at least one previously uncategorised frame (the count strictly
decreases), no operation of the body ever returns a tagged frame to
uncategorised, and consequently the loop run with fuel `n + 1` from the
all-uncategorised state ends with its guard false. -/
theorem categorisation_loop_terminates (p : PFParams) (n : ℕ) (ints0 rt : ℕ → ℚ)
    (h0 : ∀ i, 0 ≤ ints0 i) :
    (∀ s : FPState, fp_cond n s = true →
        countUC n (fp_body p n ints0 rt s).cats < countUC n s.cats)
    ∧ (∀ (s : FPState) (i : ℕ),
        s.cats i ≠ Cat.UC → (fp_body p n ints0 rt s).cats i ≠ Cat.UC)
    ∧ fp_cond n (fp_loop p n ints0 rt (n + 1) ⟨fun _ => Cat.UC, ints0⟩) = false := by
  refine ⟨fun s hc => countUC_decreases p n ints0 rt h0 s hc,
    fun s i hne h2 => hne (fp_body_no_untag p n ints0 rt s i h2), ?_⟩
  apply fp_loop_exits p n ints0 rt h0
  show countUC n (fun _ => Cat.UC) < n + 1
  have : countUC n (fun _ => Cat.UC) = n := by
    unfold countUC
    simp
  omega

/-- Witness for C6 at the Scenario B input. -/
theorem categorisation_loop_terminates_witness :
    fp_cond 5 (fp_loop paramsB 5 intsB rtB (5 + 1) ⟨fun _ => Cat.UC, intsB⟩) = false :=
  (categorisation_loop_terminates paramsB 5 intsB rtB intsB_nonneg).2.2

/-!
C3: the mass-cluster completeness property.  The renumbering pass
(Clustering.py lines 122-130) compares the running ID it has just written
with the OLD label of the next row, so it preserves cluster co-membership
only when the pre-renumbering label column is already dense in order of
appearance.  `fcluster` numbers flat clusters in dendrogram-DFS order, not
appearance order, so that condition can fail; and complete linkage can
split a pair closer than both tolerance half-widths.  Both failure modes
are exhibited by the counterexample; the amended theorem states the
conditional guarantee.
-/

/-- Successive labels of a column that is dense in order of appearance
repeat or step by one. -/
def StepRel (a b : ℕ) : Prop := b = a ∨ b = a + 1

instance : DecidableRel StepRel := fun a b =>
  inferInstanceAs (Decidable (b = a ∨ b = a + 1))

/-- The renumbering loop is the identity on a label column that starts at
the running ID and only repeats or steps by one. -/
theorem renum_go_fix : ∀ (l : List ℕ) (k : ℕ), l.head? = some k →
    List.Chain' StepRel l → renum_go k l = l := by
  intro l
  induction l with
  | nil => intro k h _; cases h
  | cons x t ih =>
    intro k h hch
    have hk : k = x := by
      simp only [List.head?_cons, Option.some.injEq] at h
      exact h.symm
    subst hk
    cases t with
    | nil => rfl
    | cons y t2 =>
      have h1 := (List.chain'_cons.mp hch).1
      have h2 := (List.chain'_cons.mp hch).2
      have hy : (if k ≠ y then k + 1 else k) = y := by
        rcases h1 with h1 | h1
        · rw [if_neg (by simp [h1])]
          omega
        · rw [if_pos (by omega)]
          omega
      show k :: renum_go (if k ≠ y then k + 1 else k) (y :: t2) = k :: y :: t2
      rw [hy, ih y rfl h2]

/-- C3 amended: the final renumbering pass of `cluster_by_mz` preserves
mass-cluster co-membership exactly on the columns where it is the identity:
whenever the pre-renumbering label column is dense in order of appearance
(first label 1, successive labels repeating or stepping by one), the pass
leaves it unchanged and any two frames with equal pre-renumbering labels
(the same flat cluster) receive the same final `mzClusterID`.  Neither
pairwise tolerance-closeness nor same-flat-cluster membership guarantees a
shared final ID in general: complete linkage can attach one frame of a
close pair to a different group first, and `fcluster`'s dendrogram-DFS
label order can violate the density condition, in which case the
new-value-versus-old-value renumbering splits even same-flat-cluster
frames (both shown in the counterexample). -/
theorem cluster_by_mz_dense_labels_preserved (fixedE ppmE : ℚ) (mzs : List ℚ)
    (h1 : (pre_labels fixedE ppmE mzs).head? = some 1)
    (h2 : List.Chain' StepRel (pre_labels fixedE ppmE mzs)) :
    cluster_by_mz fixedE ppmE mzs = Except.ok (pre_labels fixedE ppmE mzs)
    ∧ ∀ i j : ℕ,
        (pre_labels fixedE ppmE mzs).getD i 0 = (pre_labels fixedE ppmE mzs).getD j 0 →
        ∀ out, cluster_by_mz fixedE ppmE mzs = Except.ok out →
          out.getD i 0 = out.getD j 0 := by
  have hfix := renum_go_fix (pre_labels fixedE ppmE mzs) 1 h1 h2
  have hok : cluster_by_mz fixedE ppmE mzs = Except.ok (pre_labels fixedE ppmE mzs) := by
    unfold cluster_by_mz
    rcases hpl : pre_labels fixedE ppmE mzs with _ | ⟨a, tl⟩
    · rw [hpl] at h1
      cases h1
    · rw [hpl] at hfix
      show Except.ok (renum_go 1 (a :: tl)) = Except.ok (a :: tl)
      rw [hfix]
  refine ⟨hok, fun i j hij out hout => ?_⟩
  rw [hok] at hout
  injection hout with hout2
  rw [← hout2]
  exact hij

/-- Witness for C3's amended statement at the four-frame table
`[100, 100.5, 101.1, 102.05]`, whose label column `[1, 1, 2, 2]` satisfies
the density condition. -/
theorem cluster_by_mz_dense_labels_preserved_witness :
    ((pre_labels 1 0 [100, 201/2, 1011/10, 2041/20]).head? = some 1
      ∧ List.Chain' StepRel (pre_labels 1 0 [100, 201/2, 1011/10, 2041/20]))
    ∧ cluster_by_mz 1 0 [100, 201/2, 1011/10, 2041/20]
        = Except.ok (pre_labels 1 0 [100, 201/2, 1011/10, 2041/20]) := by
  have e : pre_labels 1 0 [100, 201/2, 1011/10, 2041/20] = [1, 1, 2, 2] := by decide
  have hch : List.Chain' StepRel (pre_labels 1 0 [100, 201/2, 1011/10, 2041/20]) := by
    rw [e]
    simp [List.chain'_cons, List.chain'_singleton, StepRel]
  exact ⟨⟨by decide, hch⟩,
    (cluster_by_mz_dense_labels_preserved 1 0 _ (by decide) hch).1⟩

/-- C3 counterexample, two failure modes on single-section tables.
First, linkage order: on m/z `[100, 100.5, 101.1, 102.05]` with
`mzFixedError = 1`, `mzPPMError = 0`, frames 1 and 2 differ by `0.6`, less
than both tolerance half-widths (`1` each), yet complete linkage first
merges frames 0-1 (gap `0.5`) and frames 2-3 (gap `0.95`), the two groups
span `2.05 > 2` (the cut-off), and the pair ends in different final
`mzClusterID`s (`1` vs `2`).  Second, label order: on m/z
`[100, 102, 110, 111]` with `mzFixedError = 2.5`, frames 0 and 1 differ by
`2`, less than both half-widths (`2.5` each), and DO share a flat cluster;
but `{110, 111}` merges first (gap `1`), so `fcluster` numbers it `1`
during the dendrogram walk and the label column is `[2, 2, 1, 1]` — the
renumbering pass then splits every run, producing `[1, 2, 3, 4]`, so even
this same-flat-cluster within-tolerance pair gets different final IDs. -/
theorem mz_cluster_completeness_fails :
    mz_sections (fun m => mz_delta m 1 0) [100, 201/2, 1011/10, 2041/20]
      = [[100, 201/2, 1011/10, 2041/20]]
    ∧ (1011/10 : ℚ) - 201/2 < min (mz_delta (201/2) 1 0) (mz_delta (1011/10) 1 0)
    ∧ cluster_by_mz 1 0 [100, 201/2, 1011/10, 2041/20] = Except.ok [1, 1, 2, 2]
    ∧ ([1, 1, 2, 2] : List ℕ).getD 1 0 ≠ ([1, 1, 2, 2] : List ℕ).getD 2 0
    ∧ mz_sections (fun m => mz_delta m (5/2) 0) [100, 102, 110, 111]
      = [[100, 102, 110, 111]]
    ∧ (102 : ℚ) - 100 < min (mz_delta 100 (5/2) 0) (mz_delta 102 (5/2) 0)
    ∧ pre_labels (5/2) 0 [100, 102, 110, 111] = [2, 2, 1, 1]
    ∧ cluster_by_mz (5/2) 0 [100, 102, 110, 111] = Except.ok [1, 2, 3, 4]
    ∧ ([1, 2, 3, 4] : List ℕ).getD 0 0 ≠ ([1, 2, 3, 4] : List ℕ).getD 1 0 := by
  decide

end LipidFinder
